import Mathlib

/-!
# flamel, package `model`: the query builder of `model/query.go`

A shallow embedding of `Query` and of its methods (`NewQuery`, `WithModelable`,
`WithField`, `OrderBy`, `OffsetBy`, `Limit`, `First`, `Get`, `get`), together with
a model of the multi-page retrieval `GetMulti`, which the tests call and which is
not in src/.

Conventions of the embedding.

* A Go pointer that may be nil is an `Option`; the Go `error` interface is
  `Option Error`, `none` being the nil error.
* A method with a pointer receiver is a function from the receiver's state to the
  receiver's new state: the `*Query` the builder methods return is the receiver
  itself, so the returned `Query` is at once the result and the new state of `q`.
* A call that does not return normally (a nil dereference inside the store
  library, a `reflect` panic) is the result `none` of an `Option`.
* The store and the cache are external collaborators, reached through `Ctx`.
-/

namespace Flamel

/-! ## Data model -/

/-- Opaque store key (`*datastore.Key`); a nil key is `none : Option Key`. -/
abbrev Key := Nat

/-- Values of the Go `interface{}` handed to a filter and stored in a property. -/
inductive Value where
  | int (i : Int)
  | str (s : String)
  | key (k : Key)
  deriving DecidableEq, Repr

/-- Flat property list of an entity (field path, value). -/
abbrev Props := List (String × Value)

/-- Error values other than the iteration sentinel. `InvalidQuery`, `NotRegistered`,
`KeyNotSet`, `NoField` and `CastFailure` are the errors `query.go` creates itself
(`errors.New` and `fmt.Errorf` at lines 104, 39, 43, 47, 148); `ErrNoSuchEntity`
is `datastore.ErrNoSuchEntity`; `Store` is any other error of the store, opaque.
The sentinel is kept apart in `Error`, so that what a scan fails with and what a
read fails with is by its type never the sentinel. -/
inductive Failure where
  | ErrNoSuchEntity
  | InvalidQuery
  | NotRegistered
  | KeyNotSet
  | NoField (typ : String) (field : String)
  | CastFailure (typ : String)
  | Store (code : Nat)
  deriving DecidableEq, Repr

/-- Non-nil values of the Go `error` interface: the sentinel `datastore.Done`
("no more results") or a failure. -/
inductive Error where
  | Done
  | Fail (f : Failure)
  deriving DecidableEq, Repr

/-- The `reflect.Type` of a struct: its name, the field names `FieldByName`
resolves, and whether a pointer to it implements the `modelable` interface. -/
structure MType where
  Name : String
  fields : List String
  modelable : Bool
  deriving DecidableEq, Repr

/-- `reflect.Type.FieldByName`, its `ok` result. -/
def MType.FieldByName (t : MType) (field : String) : Bool :=
  decide (field ∈ t.fields)

/-- State of the embedded `Model` marker of an entity. -/
structure Model where
  Registered : Bool
  key : Option Key
  structName : String
  deriving DecidableEq, Repr

/-- An entity value (a struct embedding `Model`) behind a `modelable` pointer: its
dynamic type, its `Model` and its own fields as a property list. -/
structure Modelable where
  typ : MType
  model : Model
  props : Props
  deriving DecidableEq, Repr

/-- The method `getModel` of `modelable`. -/
def Modelable.getModel (m : Modelable) : Model := m.model

/-- `reflect.New(t)`: a fresh zero value of type `t`. -/
def reflectNew (t : MType) : Modelable :=
  { typ := t, model := { Registered := false, key := none, structName := "" }, props := [] }

/-! ## The store collaborator -/

/-- Modelled from the spec: the value behind a non-nil `*datastore.Query` (the store
library is not in src/). Section 3: a query is "a composition of: target type,
ordered list of filter predicates (field, operator, value), ordering clauses,
offset, limit"; section 6 adds the keys-only projection. The arguments are kept as
they are handed over (filter string and value, order string), in call order; the
store reads them when the query runs. -/
structure DQuery where
  kind : String
  filter : List (String × Value)
  order : List String
  offset : Int
  limit : Int
  keysOnly : Bool
  deriving DecidableEq, Repr

/-- Modelled from the spec: `datastore.NewQuery(kind)`, a query on a kind with no
filter, no order, no offset and no limit (a negative limit is no limit). -/
def datastoreNewQuery (kind : String) : DQuery :=
  { kind := kind, filter := [], order := [], offset := 0, limit := -1, keysOnly := false }

/-- Modelled from the spec: `(*datastore.Query).Filter`, one more filter predicate
after the existing ones. -/
def DQuery.Filter (d : DQuery) (filterStr : String) (value : Value) : DQuery :=
  { d with filter := d.filter ++ [(filterStr, value)] }

/-- Modelled from the spec: `(*datastore.Query).Order`, one more ordering clause
after the existing ones. -/
def DQuery.Order (d : DQuery) (fieldName : String) : DQuery :=
  { d with order := d.order ++ [fieldName] }

/-- Modelled from the spec: `(*datastore.Query).Offset`. -/
def DQuery.Offset (d : DQuery) (offset : Int) : DQuery :=
  { d with offset := offset }

/-- Modelled from the spec: `(*datastore.Query).Limit`. -/
def DQuery.Limit (d : DQuery) (limit : Int) : DQuery :=
  { d with limit := limit }

/-- Modelled from the spec: `(*datastore.Query).KeysOnly`, the keys-only
projection. -/
def DQuery.KeysOnly (d : DQuery) : DQuery :=
  { d with keysOnly := true }

/-- Opaque position marker of a scan. -/
abbrev Cursor := Nat

/-- Modelled from the spec: the state of a `*datastore.Iterator` (section 6: a
forward-only scan "signaled by an explicit no-more-results sentinel distinct from
other errors"): the keys still to be yielded, how the scan ends after them (`none`:
with the sentinel `Done`; `some f`: with the failure `f`), the number of keys
yielded so far, and the sticky error of the iterator. A scan yields finitely many
keys. -/
structure Iterator where
  keys : List Key
  failure : Option Failure
  pos : Nat
  err : Option Error
  deriving DecidableEq, Repr

/-- Modelled from the spec: `it.Next(nil)`, the Go pair `(key, err)` as an `Except`,
and the iterator's new state. Once `Next` has reported an error it keeps reporting
it. -/
def Iterator.Next (it : Iterator) : Except Error Key × Iterator :=
  match it.err with
  | some e => (.error e, it)
  | none =>
    match it.keys with
    | k :: ks => (.ok k, { it with keys := ks, pos := it.pos + 1 })
    | [] =>
      match it.failure with
      | some f => (.error (.Fail f), { it with err := some (.Fail f) })
      | none => (.error .Done, { it with err := some .Done })

/-- Modelled from the spec: `it.Cursor()`, the position reached. As in the store
library, the call fails only with the error the iterator is stuck in, and not
when that error is the sentinel. -/
def Iterator.Cursor (it : Iterator) : Cursor × Option Error :=
  match it.err with
  | some (.Fail f) => (0, some (.Fail f))
  | _ => (it.pos, none)

/-- The request-scoped handles carried by the `context.Context`: what a scan of a
store query yields (its keys in query order, and how the scan ends), and what a
cache-first fetch of a key returns. -/
structure Ctx where
  scan : DQuery → List Key × Option Failure
  fetch : Key → Except Failure Props

/-- Modelled from the spec: `dq.Run(ctx)`, a fresh iterator over the scan of `d`. -/
def DQuery.Run (d : DQuery) (ctx : Ctx) : Iterator :=
  { keys := (ctx.scan d).1, failure := (ctx.scan d).2, pos := 0, err := none }

/-! ## Package functions used by `query.go` that live in other files -/

/-- Modelled from the spec: `index` (Schema Indexer, not in src/). Section 3 of the
spec: an entity "carries a structName (its type identity in the store) and a
Registered flag (schema indexed)"; indexing "must not fail for any structurally
valid type". Only the effect on the entity is modelled, not the schema cache. -/
def index (m : Modelable) : Modelable :=
  { m with model := { m.model with Registered := true, structName := m.typ.Name } }

/-- Modelled from the spec: `Read` (CRUD Engine, not in src/). Section 4.3: the
"entity must already carry a key", the cache is consulted first and then the
store, the "result is unflattened into the provided entity value", and the call
fails with "no such entity" when neither holds the key; a key is "immutable" once
assigned. The Go function mutates `m` in place and returns an error. -/
def Read (ctx : Ctx) (m : Modelable) : Except Failure Modelable :=
  match m.model.key with
  | none => .error .KeyNotSet
  | some k =>
    match ctx.fetch k with
    | .ok p => .ok { m with props := p }
    | .error f => .error f

/-! ## `query.go` -/

/-- The struct `Query` (lines 12-16). `dq` is the `*datastore.Query`, nil in the
zero `Query`; `mType` is the type captured by `NewQuery`. A `Query` here always
has a target type: the zero `Query` of Go, which has none, only matters to `Get`,
which stops at its nil `dq`. The field `mValue` is never assigned nor read in the
file and is left out. -/
structure Query where
  dq : Option DQuery
  mType : MType
  deriving DecidableEq, Repr

/-- `NewQuery` (lines 18-31): returns the query and the new state of `m`, which
`index` may have changed. -/
def NewQuery (m : Modelable) : Query × Modelable :=
  let m1 := if !m.getModel.Registered then index m else m
  ({ dq := some (datastoreNewQuery m1.getModel.structName), mType := m.typ }, m1)

/-- `Query.WithField` (lines 55-58). On a nil `dq` the call of `Filter` is a nil
dereference in the store library, and the method does not return; the same holds
for the three methods that follow. -/
def Query.WithField (q : Query) (field : String) (value : Value) : Option Query :=
  match q.dq with
  | none => none
  | some d => some { q with dq := some (d.Filter field value) }

/-- `Query.OrderBy` (lines 60-63). -/
def Query.OrderBy (q : Query) (fieldName : String) : Option Query :=
  match q.dq with
  | none => none
  | some d => some { q with dq := some (d.Order fieldName) }

/-- `Query.OffsetBy` (lines 65-68); the Go `int` is taken as an integer, no
arithmetic is done on it. -/
def Query.OffsetBy (q : Query) (offset : Int) : Option Query :=
  match q.dq with
  | none => none
  | some d => some { q with dq := some (d.Offset offset) }

/-- `Query.Limit` (lines 70-73). -/
def Query.Limit (q : Query) (limit : Int) : Option Query :=
  match q.dq with
  | none => none
  | some d => some { q with dq := some (d.Limit limit) }

/-- `Query.WithModelable` (lines 36-53). `referenceName` is a function of the
package defined in another file and is taken as a parameter. An error comes with a
nil query and leaves the receiver as it was. -/
def Query.WithModelable (referenceName : String → String → String) (q : Query)
    (field : String) (ref : Modelable) : Option (Except Failure Query) :=
  let refm := ref.getModel
  if !refm.Registered then
    some (.error .NotRegistered)
  else
    match refm.key with
    | none => some (.error .KeyNotSet)
    | some k =>
      if !q.mType.FieldByName field then
        some (.error (.NoField q.mType.Name field))
      else
        let refName := referenceName q.mType.Name field
        (q.WithField (refName ++ " = ") (.key k)).map .ok

/-- How the `for` loop of `Query.get` is left: by a `return` inside the loop, or by
`break` with the loop variables as they are then. -/
inductive LoopExit where
  | ret (modelables : List Modelable) (cursor : Option Cursor) (err : Option Error)
  | brk (it : Iterator) (modelables : List Modelable) (more : Bool) (rc : Nat)
  deriving DecidableEq, Repr

/-- The `for` loop of `Query.get` (lines 129-166), one iteration per unit of fuel;
`none` when the fuel is used up before the loop is left. -/
def getLoop (ctx : Ctx) (mType : MType) :
    Nat → Iterator → List Modelable → Bool → Nat → Option LoopExit
  | 0, _, _, _, _ => none
  | fuel + 1, it, modelables, more, rc =>
    match it.Next with
    | (.error .Done, it1) => some (.brk it1 modelables more rc)
    | (.error e, _) => some (.ret modelables none (some e))
    | (.ok key, it1) =>
      let newModelable := reflectNew mType
      if !newModelable.typ.modelable then
        some (.ret modelables none (some (.Fail (.CastFailure mType.Name))))
      else
        let m := index newModelable
        let m := { m with model := { m.model with key := some key } }
        match Read ctx m with
        | .error f => some (.ret modelables none (some (.Fail f)))
        | .ok m1 => getLoop ctx mType fuel it1 (modelables ++ [m1]) true (rc + 1)

/-- `Query.get` (lines 122-177): the caller's slice afterwards, the cursor and the
error. The loop gets one unit of fuel more than the iterator has keys. The
assignments `query = nil` only change the local receiver variable. -/
def Query.get (q : Query) (ctx : Ctx) (modelables : List Modelable) :
    Option (List Modelable × Option Cursor × Option Error) :=
  match q.dq with
  | none => none
  | some d =>
    let it := d.Run ctx
    match getLoop ctx q.mType (it.keys.length + 1) it modelables false 0 with
    | none => none
    | some (.ret ms cursor err) => some (ms, cursor, err)
    | some (.brk it1 ms more _) =>
      if !more then
        some (ms, none, some .Done)
      else
        some (ms, some it1.Cursor.1, it1.Cursor.2)

/-- Outcome of `Query.Get`: the receiver afterwards, the caller's slice afterwards
and the error returned. -/
structure GetResult where
  query : Query
  modelables : List Modelable
  err : Option Error
  deriving DecidableEq, Repr

/-- `Query.Get` (lines 101-120). The deferred `query = nil` only changes the local
receiver variable. -/
def Query.Get (q : Query) (ctx : Ctx) (modelables : List Modelable) : Option GetResult :=
  match q.dq with
  | none => some { query := q, modelables := modelables, err := some (.Fail .InvalidQuery) }
  | some d =>
    let q1 : Query := { q with dq := some d.KeysOnly }
    match q1.get ctx modelables with
    | none => none
    | some (ms, _, e) =>
      if e ≠ none ∧ e ≠ some .Done then
        some { query := q1, modelables := ms, err := e }
      else
        some { query := q1, modelables := ms, err := none }

/-- Outcome of `Query.First`: the receiver afterwards, the destination `m`
afterwards and the error returned. -/
structure FirstResult where
  query : Query
  m : Modelable
  err : Option Error
  deriving DecidableEq, Repr

/-- `Query.First` (lines 81-99). `reflect.Value.Set` copies the first result into
the destination and panics when the two are not of the same type. -/
def Query.First (q : Query) (ctx : Ctx) (m : Modelable) : Option FirstResult :=
  match q.dq with
  | none => none
  | some d =>
    let q1 : Query := { q with dq := some (d.Limit 1) }
    match q1.Get ctx [] with
    | none => none
    | some r =>
      match r.err with
      | some e => some { query := r.query, m := m, err := some e }
      | none =>
        match r.modelables with
        | src :: _ =>
          if m.typ = src.typ then some { query := r.query, m := src, err := none } else none
        | [] => some { query := r.query, m := m, err := some (.Fail .ErrNoSuchEntity) }

/-! ## `GetMulti`, the multi-page retrieval

The `GetMulti` the tests call (`model_test.go` 361) is not in src/: `query.go` only
holds, inside one block comment (lines 182-348), the text of an earlier version,
which is not compiled. The definitions of this section model the function from
sections 4.4, 5 and 8 of the spec. -/

/-- Modelled from the spec: the fixed page size of `GetMulti` (not in src/), the
store's per-request page cap of section 4.4; the comment at `query.go` 179 gives
the store's limit as 1000. -/
def GetMulti.pageSize : Nat := 1000

/-- Modelled from the spec: `GetMulti` (not in src/) "splits the scan into
fixed-size pages" (section 4.4): as long as keys are left, the next page takes up
to `P` of them, in scan order. One unit of fuel per page. -/
def GetMulti.split {α : Type} (P : Nat) : Nat → List α → List (List α)
  | 0, _ => []
  | fuel + 1, keys =>
    if keys.isEmpty then [] else keys.take P :: GetMulti.split P fuel (keys.drop P)

/-- Modelled from the spec: the pages of `GetMulti` (not in src/) for a scan that
yields `keys`, in page order; the fuel is the number of keys, and a scan has at
most one page per key. -/
def GetMulti.pages {α : Type} (P : Nat) (keys : List α) : List (List α) :=
  GetMulti.split P keys.length keys

/-- Modelled from the spec: the page of index `i` of `GetMulti` (not in src/); no
key when there is no such page. -/
def GetMulti.page {α : Type} (P : Nat) (keys : List α) (i : Nat) : List α :=
  (GetMulti.pages P keys).getD i []

/-- Modelled from the spec: what the goroutines of `GetMulti` (not in src/) hand
back, "one goroutine per page" (section 4.4): each page with its page index, in
the order `completion` in which the goroutines finish. -/
def GetMulti.delivered {α : Type} (P : Nat) (keys : List α) (completion : List Nat) :
    List (Nat × List α) :=
  completion.map (fun i => (i, GetMulti.page P keys i))

/-- Modelled from the spec: the last step of `GetMulti` (not in src/), where the
results of the pages "are concatenated back into original query order by page
index, not by completion order" (section 4.4). -/
def GetMulti.concatByIndex {α : Type} (count : Nat) (delivered : List (Nat × List α)) :
    List α :=
  ((List.range count).map (fun i => (delivered.lookup i).getD [])).flatten

/-- Modelled from the spec: the keys `GetMulti` (not in src/) returns for a scan
that yields `keys`, with pages of size `P` whose goroutines finish in the order
`completion`. -/
def GetMulti.run {α : Type} (P : Nat) (keys : List α) (completion : List Nat) : List α :=
  GetMulti.concatByIndex (GetMulti.pages P keys).length (GetMulti.delivered P keys completion)

/-! ## An in-memory store

The store library is not in src/. The definitions of this section model it from
section 6 of the spec, which asks of the store "a query interface supporting
named-kind scans with equality/inequality filters on named properties (including
multi-valued-property AND-filters), ascending/descending order, offset, limit,
keys-only projection", and from section 4.3 for the cache-first read. -/

/-- Modelled from the spec: a record of the store (key, kind, property list). -/
structure Stored where
  key : Key
  kind : String
  props : Props
  deriving DecidableEq, Repr

/-- Modelled from the spec: the "equality/inequality" operators of a filter. -/
inductive Op where
  | lt | le | gt | ge | eq
  deriving DecidableEq, Repr

/-- Removes the blanks at both ends of a string. -/
def trimSpace (cs : List Char) : List Char :=
  ((cs.dropWhile (· == ' ')).reverse.dropWhile (· == ' ')).reverse

/-- Modelled from the spec: the store's reading of a filter string such as
`"Num >"` or `"Name = "` (the store library is not in src/): a property name
followed by one of the operators `<`, `<=`, `>`, `>=`, `=`, blanks aside. -/
def parseFilter (s : String) : Option (String × Op) :=
  let cs := trimSpace s.data
  let field := (cs.reverse.dropWhile (fun c => c ∈ [' ', '>', '<', '=', '!'])).reverse
  let op := trimSpace (cs.drop field.length)
  if field = [] then none
  else if op = ['<'] then some (String.mk field, .lt)
  else if op = ['<', '='] then some (String.mk field, .le)
  else if op = ['>'] then some (String.mk field, .gt)
  else if op = ['>', '='] then some (String.mk field, .ge)
  else if op = ['='] then some (String.mk field, .eq)
  else none

/-- Modelled from the spec: the order of the values of a property (what the
store's "ascending/descending order" compares): numbers before strings before
keys, each kind in its own order. -/
def Value.le : Value → Value → Bool
  | .int a, .int b => decide (a ≤ b)
  | .int _, _ => true
  | .str _, .int _ => false
  | .str a, .str b => decide (a ≤ b)
  | .str _, .key _ => true
  | .key a, .key b => decide (a ≤ b)
  | .key _, _ => false

/-- Whether two values are of the same kind. -/
def Value.sameKind : Value → Value → Bool
  | .int _, .int _ => true
  | .str _, .str _ => true
  | .key _, .key _ => true
  | _, _ => false

/-- Modelled from the spec: whether a property value `a` stands in the relation
`op` to the filter value `b`; values of different kinds are never related. -/
def Op.holds (op : Op) (a b : Value) : Bool :=
  a.sameKind b &&
    match op with
    | .lt => a.le b && a != b
    | .le => a.le b
    | .gt => b.le a && a != b
    | .ge => b.le a
    | .eq => a == b

/-- Modelled from the spec: whether one value of the record's property satisfies
the filter (a repeated property matches by any of its values, section 3). A filter
string the store cannot read is satisfied by nothing. -/
def Stored.satisfies (e : Stored) (f : String × Value) : Bool :=
  match parseFilter f.1 with
  | none => false
  | some (field, op) => e.props.any (fun pv => pv.1 == field && op.holds pv.2 f.2)

/-- Modelled from the spec: the value a record is sorted by for a property, its
first value if any. -/
def Stored.atom (e : Stored) (field : String) : Option Value :=
  (e.props.find? (fun pv => pv.1 == field)).map (·.2)

/-- Modelled from the spec: the order of two sort values; a record without the
property comes first. -/
def atomLe : Option Value → Option Value → Bool
  | none, _ => true
  | some _, none => false
  | some a, some b => a.le b

/-- Modelled from the spec: the ordering clause `fieldName`, ascending on the
property, or descending when the name starts with `-`. -/
def orderRel (fieldName : String) (a b : Stored) : Prop :=
  match fieldName.data with
  | '-' :: field => atomLe (b.atom (String.mk field)) (a.atom (String.mk field)) = true
  | _ => atomLe (a.atom fieldName) (b.atom fieldName) = true

instance (fieldName : String) : DecidableRel (orderRel fieldName) := fun a b => by
  unfold orderRel; split <;> exact inferInstance

/-- Modelled from the spec: the records of the query's kind that satisfy all its
filters, ordered by key and then, by a stable sort, by each ordering clause, the
first clause being the most significant. -/
def memMatches (db : List Stored) (d : DQuery) : List Stored :=
  let hits := db.filter (fun e => e.kind == d.kind && d.filter.all e.satisfies)
  d.order.foldr (fun o acc => acc.insertionSort (orderRel o))
    (hits.insertionSort (fun a b => a.key ≤ b.key))

/-- Modelled from the spec: the scan of a query by the store, the keys of the
matching records past the offset, up to the limit (a negative limit is no limit).
A filter string that cannot be read or a negative offset fails the scan. -/
def memScan (db : List Stored) (d : DQuery) : List Key × Option Failure :=
  if d.offset < 0 ∨ d.filter.any (fun f => (parseFilter f.1).isNone) then
    ([], some (.Store 1))
  else
    let page := (memMatches db d).drop d.offset.toNat
    let page := if d.limit < 0 then page else page.take d.limit.toNat
    (page.map (·.key), none)

/-- Modelled from the spec: the request context over a cache and a store; a fetch
looks the key up in the cache first and in the store after a miss, and fails with
"no such entity" when neither holds the key (section 4.3). -/
def memCtx (cache : List (Key × Props)) (db : List Stored) : Ctx :=
  { scan := memScan db
    fetch := fun k =>
      match cache.lookup k with
      | some p => .ok p
      | none =>
        match db.find? (fun e => e.key == k) with
        | some e => .ok e.props
        | none => .error .ErrNoSuchEntity }

/-- The number held by the property `Num` (0 when there is none). -/
def numOf (p : Props) : Int :=
  match p.find? (fun pv => pv.1 == "Num") with
  | some (_, .int i) => i
  | _ => 0

/-! ## Concrete inputs -/

/-- The type `Entity` of the tests, by the names of the fields used here. -/
def entityType : MType := { Name := "Entity", fields := ["Name", "Num", "Child"], modelable := true }

/-- A store that yields the keys 1 and 2 and then the sentinel; every fetch works. -/
def twoKeys : Ctx :=
  { scan := fun _ => ([1, 2], none), fetch := fun k => .ok [("Num", .int k)] }

/-- A store that yields the key 1 and then fails; every fetch works. -/
def failsAfterOne : Ctx :=
  { scan := fun _ => ([1], some (.Store 7)), fetch := fun k => .ok [("Num", .int k)] }

/-- A store that yields the keys 1, 2, 3; the fetch of key 2 fails. -/
def secondReadFails : Ctx :=
  { scan := fun _ => ([1, 2, 3], none)
    fetch := fun k => if k = 2 then .error (.Store 9) else .ok [("Num", .int k)] }

/-- The query `NewQuery(&Entity{})`. -/
def entityQuery : Query := (NewQuery (reflectNew entityType)).1

/-- A keyed and registered entity used as a reference. -/
def keyedRef : Modelable :=
  { typ := { Name := "Child", fields := ["Name"], modelable := true }
    model := { Registered := true, key := some 42, structName := "Child" }, props := [] }

/-- A reference-name function for the concrete inputs. -/
def dotName (typ field : String) : String := typ ++ "." ++ field

/-- Three records of kind `Entity` with the numbers 2, 0, 1, and one of another kind. -/
def smallDb : List Stored :=
  [ { key := 10, kind := "Entity", props := [("Name", .str "c"), ("Num", .int 2)] },
    { key := 11, kind := "Entity", props := [("Num", .int 0)] },
    { key := 12, kind := "Child", props := [("Num", .int 5)] },
    { key := 13, kind := "Entity", props := [("Num", .int 1), ("Name", .str "b")] } ]

/-- The store of `TestModel`: 100 records of kind `Entity` with the numbers 0..99. -/
def hundred : List Stored :=
  (List.range 100).map (fun i => { key := i + 1, kind := "Entity", props := [("Num", .int i)] })

/-! ## Vocabulary of the statements -/

/-- The entity `Query.get` hands to `Read` for the key `k`: a fresh value of the
query's type, indexed, with its key set (lines 144-156). -/
def keyed (T : MType) (k : Key) : Modelable :=
  { index (reflectNew T) with model := { (index (reflectNew T)).model with key := some k } }

/-- An entity of type `T` that carries the key `k` and the content `p`. -/
def materialised (T : MType) (k : Key) (p : Props) : Modelable :=
  { typ := T, model := { Registered := true, key := some k, structName := T.Name }, props := p }

/-! ## The loop of `Query.get` -/

theorem Read_keyed (ctx : Ctx) (T : MType) (k : Key) :
    Read ctx (keyed T k) = (ctx.fetch k).map (materialised T k) := by
  cases h : ctx.fetch k <;> simp [Read, keyed, materialised, index, reflectNew, h, Except.map]

/-- One turn of the loop on a key whose `Read` succeeds. -/
theorem getLoop_step_ok (ctx : Ctx) (T : MType) (hT : T.modelable = true) (k : Key)
    (p : Props) (hk : ctx.fetch k = .ok p) (ks : List Key) (fuel : Nat)
    (failure : Option Failure) (pos : Nat) (ms : List Modelable) (more : Bool) (rc : Nat) :
    getLoop ctx T (fuel + 1) ⟨k :: ks, failure, pos, none⟩ ms more rc
      = getLoop ctx T fuel ⟨ks, failure, pos + 1, none⟩ (ms ++ [materialised T k p]) true
          (rc + 1) := by
  simp [getLoop, Iterator.Next, reflectNew, index, Read, materialised, hT, hk]

/-- One turn of the loop on a key whose `Read` fails. -/
theorem getLoop_step_fail (ctx : Ctx) (T : MType) (hT : T.modelable = true) (k : Key)
    (f : Failure) (hk : ctx.fetch k = .error f) (ks : List Key) (fuel : Nat)
    (failure : Option Failure) (pos : Nat) (ms : List Modelable) (more : Bool) (rc : Nat) :
    getLoop ctx T (fuel + 1) ⟨k :: ks, failure, pos, none⟩ ms more rc
      = some (.ret ms none (some (.Fail f))) := by
  simp [getLoop, Iterator.Next, reflectNew, index, Read, materialised, hT, hk]

/-- One turn of the loop on a key when the cast to `modelable` fails. -/
theorem getLoop_step_cast (ctx : Ctx) (T : MType) (hT : T.modelable = false) (k : Key)
    (ks : List Key) (fuel : Nat)
    (failure : Option Failure) (pos : Nat) (ms : List Modelable) (more : Bool) (rc : Nat) :
    getLoop ctx T (fuel + 1) ⟨k :: ks, failure, pos, none⟩ ms more rc
      = some (.ret ms none (some (.Fail (.CastFailure T.Name)))) := by
  simp [getLoop, Iterator.Next, reflectNew, hT]

/-- The turn of the loop that finds the iterator exhausted. -/
theorem getLoop_step_end (ctx : Ctx) (T : MType) (fuel : Nat)
    (failure : Option Failure) (pos : Nat) (ms : List Modelable) (more : Bool) (rc : Nat) :
    getLoop ctx T (fuel + 1) ⟨[], failure, pos, none⟩ ms more rc
      = match failure with
        | none => some (.brk ⟨[], none, pos, some .Done⟩ ms more rc)
        | some f => some (.ret ms none (some (.Fail f))) := by
  cases failure <;> simp [getLoop, Iterator.Next]

/-- The loop over a run of keys whose reads all succeed: the entities are appended
in order and the loop goes on with the rest of the scan. -/
theorem getLoop_run (ctx : Ctx) (T : MType) (hT : T.modelable = true)
    (content : Key → Props) (rest : List Key) (failure : Option Failure) :
    ∀ (pre : List Key) (fuel pos : Nat) (ms : List Modelable) (more : Bool) (rc : Nat),
      (∀ k ∈ pre, ctx.fetch k = .ok (content k)) →
      getLoop ctx T (pre.length + fuel) ⟨pre ++ rest, failure, pos, none⟩ ms more rc
        = getLoop ctx T fuel ⟨rest, failure, pos + pre.length, none⟩
            (ms ++ pre.map (fun k => materialised T k (content k)))
            (more || !pre.isEmpty) (rc + pre.length) := by
  intro pre
  induction pre with
  | nil => intro fuel pos ms more rc _; simp
  | cons k ks ih =>
    intro fuel pos ms more rc h
    have hk : ctx.fetch k = .ok (content k) := h k (List.mem_cons_self _ _)
    have hks : ∀ x ∈ ks, ctx.fetch x = .ok (content x) :=
      fun x hx => h x (List.mem_cons_of_mem _ hx)
    have e1 : (k :: ks).length + fuel = (ks.length + fuel) + 1 := by simp; omega
    rw [e1, List.cons_append, getLoop_step_ok ctx T hT k (content k) hk, ih fuel _ _ _ _ hks]
    simp [Nat.add_assoc, Nat.add_comm 1]

/-! ## `Query.Get` on the possible courses of a scan -/

/-- The loop as `Query.get` starts it, after a run of keys whose reads succeed. -/
theorem getLoop_start (ctx : Ctx) (T : MType) (hT : T.modelable = true)
    (content : Key → Props) (pre rest : List Key) (failure : Option Failure)
    (ms : List Modelable) (h : ∀ k ∈ pre, ctx.fetch k = .ok (content k)) :
    getLoop ctx T ((pre ++ rest).length + 1) ⟨pre ++ rest, failure, 0, none⟩ ms false 0
      = getLoop ctx T (rest.length + 1) ⟨rest, failure, pre.length, none⟩
          (ms ++ pre.map (fun k => materialised T k (content k))) (!pre.isEmpty)
          pre.length := by
  have e1 : (pre ++ rest).length + 1 = pre.length + (rest.length + 1) := by
    simp [List.length_append]; omega
  rw [e1, getLoop_run ctx T hT content rest failure pre _ _ _ _ _ h]
  simp

/-- A scan that ends with the sentinel, every read succeeding: no error, and the
entities appended in scan order. -/
theorem Get_clean (ctx : Ctx) (q : Query) (d : DQuery) (hd : q.dq = some d)
    (hT : q.mType.modelable = true) (content : Key → Props) (keys : List Key)
    (hscan : ctx.scan d.KeysOnly = (keys, none))
    (h : ∀ k ∈ keys, ctx.fetch k = .ok (content k)) (ms : List Modelable) :
    q.Get ctx ms = some
      { query := { q with dq := some d.KeysOnly },
        modelables := ms ++ keys.map (fun k => materialised q.mType k (content k)),
        err := none } := by
  have hl := getLoop_start ctx q.mType hT content keys [] none ms h
  simp only [List.append_nil] at hl
  simp only [Query.Get, Query.get, hd, DQuery.Run, hscan, hl, List.length_nil, Nat.zero_add,
    getLoop_step_end]
  cases keys <;> simp [Iterator.Cursor]

/-- A scan that ends with a failure after its keys, every read succeeding: that
failure is returned, and the entities read before it stay appended. -/
theorem Get_iterFail (ctx : Ctx) (q : Query) (d : DQuery) (hd : q.dq = some d)
    (hT : q.mType.modelable = true) (content : Key → Props) (keys : List Key) (f : Failure)
    (hscan : ctx.scan d.KeysOnly = (keys, some f))
    (h : ∀ k ∈ keys, ctx.fetch k = .ok (content k)) (ms : List Modelable) :
    q.Get ctx ms = some
      { query := { q with dq := some d.KeysOnly },
        modelables := ms ++ keys.map (fun k => materialised q.mType k (content k)),
        err := some (.Fail f) } := by
  have hl := getLoop_start ctx q.mType hT content keys [] (some f) ms h
  simp only [List.append_nil] at hl
  simp [Query.Get, Query.get, hd, DQuery.Run, hscan, hl, getLoop_step_end]

/-- A scan in which the read of some key fails, the reads before it succeeding: the
failure of that read is returned, the entities read before it stay appended, and
what the scan holds after that key plays no part. -/
theorem Get_readFail (ctx : Ctx) (q : Query) (d : DQuery) (hd : q.dq = some d)
    (hT : q.mType.modelable = true) (content : Key → Props) (pre : List Key) (k : Key)
    (post : List Key) (failure : Option Failure) (f : Failure)
    (hscan : ctx.scan d.KeysOnly = (pre ++ k :: post, failure))
    (h : ∀ x ∈ pre, ctx.fetch x = .ok (content x)) (hk : ctx.fetch k = .error f)
    (ms : List Modelable) :
    q.Get ctx ms = some
      { query := { q with dq := some d.KeysOnly },
        modelables := ms ++ pre.map (fun x => materialised q.mType x (content x)),
        err := some (.Fail f) } := by
  have hl := getLoop_start ctx q.mType hT content pre (k :: post) failure ms h
  rw [List.length_cons, getLoop_step_fail ctx q.mType hT k f hk] at hl
  simp only [Query.Get, Query.get, hd, DQuery.Run, hscan, hl]
  simp

/-- A scan that yields a key while the query's type cannot be cast to `modelable`:
the cast failure is returned and nothing is appended. -/
theorem Get_castFail (ctx : Ctx) (q : Query) (d : DQuery) (hd : q.dq = some d)
    (hT : q.mType.modelable = false) (k : Key) (ks : List Key) (failure : Option Failure)
    (hscan : ctx.scan d.KeysOnly = (k :: ks, failure)) (ms : List Modelable) :
    q.Get ctx ms = some
      { query := { q with dq := some d.KeysOnly }, modelables := ms,
        err := some (.Fail (.CastFailure q.mType.Name)) } := by
  simp [Query.Get, Query.get, hd, DQuery.Run, hscan, List.length_cons,
    getLoop_step_cast ctx q.mType hT k]

/-- A scan that yields no key: the sentinel or the failure of the scan decides. -/
theorem Get_empty (ctx : Ctx) (q : Query) (d : DQuery) (hd : q.dq = some d)
    (failure : Option Failure) (hscan : ctx.scan d.KeysOnly = ([], failure))
    (ms : List Modelable) :
    q.Get ctx ms = some
      { query := { q with dq := some d.KeysOnly }, modelables := ms,
        err := failure.map Error.Fail } := by
  cases failure <;>
    simp [Query.Get, Query.get, hd, DQuery.Run, hscan, getLoop_step_end]

/-- A nil `dq`: the invalid-query error, and the slice untouched. -/
theorem Get_nil (ctx : Ctx) (q : Query) (hd : q.dq = none) (ms : List Modelable) :
    q.Get ctx ms = some { query := q, modelables := ms, err := some (.Fail .InvalidQuery) } := by
  simp [Query.Get, hd]

/-- On a scan of no key that ends with the sentinel, the internal `get` returns the
sentinel `Done`, which `Get` then swallows. -/
theorem get_no_keys (ctx : Ctx) (q : Query) (d : DQuery) (hd : q.dq = some d)
    (hscan : ctx.scan d = ([], none)) (ms : List Modelable) :
    q.get ctx ms = some (ms, none, some .Done) := by
  simp [Query.get, hd, DQuery.Run, hscan, getLoop_step_end]

/-- With more fuel than the iterator has keys, the loop is left. -/
theorem getLoop_returns (ctx : Ctx) (T : MType) (failure : Option Failure) :
    ∀ (keys : List Key) (fuel pos : Nat) (ms : List Modelable) (more : Bool) (rc : Nat),
      keys.length < fuel →
      ∃ x, getLoop ctx T fuel ⟨keys, failure, pos, none⟩ ms more rc = some x := by
  intro keys
  induction keys with
  | nil =>
    intro fuel pos ms more rc h
    obtain ⟨f, rfl⟩ : ∃ f, fuel = f + 1 := ⟨fuel - 1, by simp at h; omega⟩
    rw [getLoop_step_end]
    cases failure <;> exact ⟨_, rfl⟩
  | cons k ks ih =>
    intro fuel pos ms more rc h
    obtain ⟨f, rfl⟩ : ∃ f, fuel = f + 1 := ⟨fuel - 1, by simp at h; omega⟩
    cases hT : T.modelable with
    | false => exact ⟨_, getLoop_step_cast ctx T hT k ks f failure pos ms more rc⟩
    | true =>
      cases hf : ctx.fetch k with
      | error e => exact ⟨_, getLoop_step_fail ctx T hT k e hf ks f failure pos ms more rc⟩
      | ok p =>
        rw [getLoop_step_ok ctx T hT k p hf]
        exact ih f _ _ _ _ (by simp at h; omega)

/-- `Get` returns on every query, context and slice. -/
theorem Get_returns (ctx : Ctx) (q : Query) (ms : List Modelable) :
    ∃ r, q.Get ctx ms = some r := by
  cases hq : q.dq with
  | none => exact ⟨_, Get_nil ctx q hq ms⟩
  | some d =>
    obtain ⟨x, hx⟩ := getLoop_returns ctx q.mType (ctx.scan d.KeysOnly).2
      (ctx.scan d.KeysOnly).1 ((ctx.scan d.KeysOnly).1.length + 1) 0 ms false 0
      (Nat.lt_succ_self _)
    simp only [Query.Get, Query.get, hq, DQuery.Run, hx]
    cases x with
    | ret ms1 c e => by_cases h : e ≠ none ∧ e ≠ some .Done <;> simp [h]
    | brk it1 ms1 more rc =>
      cases more with
      | false => simp
      | true =>
        by_cases h : it1.Cursor.2 ≠ none ∧ it1.Cursor.2 ≠ some .Done <;> simp [h]

/-- The query `NewQuery` builds has a store query of the entity's kind and the
entity's type as its target type. -/
theorem NewQuery_shape (m : Modelable) :
    (NewQuery m).1.mType = m.typ ∧ ∃ d, (NewQuery m).1.dq = some d := by
  exact ⟨rfl, _, rfl⟩

/-! ## Reads along a scan -/

theorem Read_keyed_ok (ctx : Ctx) (T : MType) (k : Key) (m : Modelable)
    (h : Read ctx (keyed T k) = .ok m) :
    ctx.fetch k = .ok m.props ∧ m = materialised T k m.props := by
  rw [Read_keyed] at h
  cases hf : ctx.fetch k with
  | error f => rw [hf] at h; simp [Except.map] at h
  | ok p =>
    rw [hf] at h
    simp only [Except.map, Except.ok.injEq] at h
    subst h
    simp [materialised]

theorem Read_keyed_error (ctx : Ctx) (T : MType) (k : Key) (f : Failure)
    (h : Read ctx (keyed T k) = .error f) : ctx.fetch k = .error f := by
  rw [Read_keyed] at h
  cases hf : ctx.fetch k with
  | error g => rw [hf] at h; simpa [Except.map] using h
  | ok p => rw [hf] at h; simp [Except.map] at h

/-- The properties a fetch returns for a key (none when it fails). -/
theorem reads_content (ctx : Ctx) (T : MType) (keys : List Key)
    (h : ∀ k ∈ keys, ∃ m, Read ctx (keyed T k) = .ok m) :
    ∃ content : Key → Props, ∀ k ∈ keys, ctx.fetch k = .ok (content k) := by
  refine ⟨fun k => match ctx.fetch k with | .ok p => p | .error _ => [], ?_⟩
  intro k hk
  obtain ⟨m, hm⟩ := h k hk
  have := (Read_keyed_ok ctx T k m hm).1
  simp [this]

/-- The entities built from the fetched contents are, key by key and in order,
what `Read` materialises. -/
theorem forall₂_materialised (ctx : Ctx) (T : MType) (content : Key → Props) :
    ∀ keys : List Key, (∀ k ∈ keys, ctx.fetch k = .ok (content k)) →
      List.Forall₂ (fun k e => e.model.key = some k ∧ Read ctx (keyed T k) = .ok e) keys
        (keys.map (fun k => materialised T k (content k))) := by
  intro keys
  induction keys with
  | nil => intro _; exact List.Forall₂.nil
  | cons k ks ih =>
    intro h
    refine List.Forall₂.cons ⟨rfl, ?_⟩ (ih (fun x hx => h x (List.mem_cons_of_mem _ hx)))
    rw [Read_keyed, h k (List.mem_cons_self _ _)]
    rfl

/-- A list on which a property does not hold throughout has a first element on
which it fails. -/
theorem first_failing {α : Type} (P : α → Prop) :
    ∀ l : List α, ¬ (∀ x ∈ l, P x) →
      ∃ pre k post, l = pre ++ k :: post ∧ (∀ x ∈ pre, P x) ∧ ¬ P k := by
  intro l
  induction l with
  | nil => intro h; exact absurd (fun x hx => absurd hx (List.not_mem_nil x)) h
  | cons a as ih =>
    intro h
    by_cases ha : P a
    · have : ¬ (∀ x ∈ as, P x) := fun hall =>
        h (fun x hx => by
          rcases List.mem_cons.1 hx with rfl | hx
          · exact ha
          · exact hall x hx)
      obtain ⟨pre, k, post, e, hpre, hk⟩ := ih this
      refine ⟨a :: pre, k, post, by simp [e], ?_, hk⟩
      intro x hx
      rcases List.mem_cons.1 hx with rfl | hx
      · exact ha
      · exact hpre x hx
    · exact ⟨[], a, as, rfl, fun x hx => absurd hx (List.not_mem_nil x), ha⟩

theorem Read_keyed_ok_or_error (ctx : Ctx) (T : MType) (k : Key)
    (h : ¬ ∃ m, Read ctx (keyed T k) = .ok m) : ∃ f, Read ctx (keyed T k) = .error f := by
  cases hr : Read ctx (keyed T k) with
  | error f => exact ⟨f, rfl⟩
  | ok m => exact absurd ⟨m, hr⟩ h

/-! ## Properties of `Query.Get` -/

/-- C1: for every query with a store query and a castable target type (as every
query built by `NewQuery` is) and every finite sequence of keys the store iterator
yields before the sentinel, if `Read` succeeds for every key then `Get` returns no
error and the caller's slice afterwards is its previous contents followed by
exactly one entity per key, in iterator order, the i-th carrying the i-th key and
being what `Read` materialised for it. -/
theorem Get_appends_entities_in_query_order (ctx : Ctx) (q : Query) (d : DQuery)
    (ms : List Modelable) (keys : List Key)
    (hd : q.dq = some d) (hT : q.mType.modelable = true)
    (hscan : ctx.scan d.KeysOnly = (keys, none))
    (hread : ∀ k ∈ keys, ∃ m, Read ctx (keyed q.mType k) = .ok m) :
    ∃ ents, q.Get ctx ms = some ⟨{ q with dq := some d.KeysOnly }, ms ++ ents, none⟩ ∧
      List.Forall₂ (fun k e => e.model.key = some k ∧ Read ctx (keyed q.mType k) = .ok e)
        keys ents := by
  obtain ⟨content, hc⟩ := reads_content ctx q.mType keys hread
  exact ⟨_, Get_clean ctx q d hd hT content keys hscan hc ms,
    forall₂_materialised ctx q.mType content keys hc⟩

theorem Get_appends_entities_in_query_order_witness :
    ∃ ents, entityQuery.Get twoKeys [keyedRef]
        = some ⟨{ entityQuery with dq := some (datastoreNewQuery "Entity").KeysOnly },
            [keyedRef] ++ ents, none⟩ ∧
      List.Forall₂
        (fun k e => e.model.key = some k ∧ Read twoKeys (keyed entityQuery.mType k) = .ok e)
        [1, 2] ents :=
  Get_appends_entities_in_query_order twoKeys entityQuery (datastoreNewQuery "Entity")
    [keyedRef] [1, 2] rfl rfl rfl (fun k _ => ⟨materialised entityType k [("Num", .int k)], rfl⟩)

/-- C2, as stated, fails: a scan that yields key 1 and then a store failure makes
`Get` return that failure, but the entity read for key 1 is in the caller's slice,
which is therefore not as it was before the call. -/
theorem Get_discards_results_counterexample :
    ¬ (∀ (ctx : Ctx) (q : Query) (d : DQuery) (ms : List Modelable) (keys : List Key)
        (f : Failure), q.dq = some d → q.mType.modelable = true → keys ≠ [] →
        ctx.scan d.KeysOnly = (keys, some f) →
        (∀ k ∈ keys, ∃ m, Read ctx (keyed q.mType k) = .ok m) →
        ∃ q1, q.Get ctx ms = some ⟨q1, ms, some (.Fail f)⟩) := by
  intro h
  obtain ⟨q1, hq⟩ := h failsAfterOne entityQuery (datastoreNewQuery "Entity") [] [1]
    (.Store 7) rfl rfl (by decide) rfl
    (fun k _ => ⟨materialised entityType k [("Num", .int k)], rfl⟩)
  have hg := Get_iterFail failsAfterOne entityQuery (datastoreNewQuery "Entity") rfl rfl
    (fun k => [("Num", .int k)]) [1] (.Store 7) rfl (fun _ _ => rfl) []
  rw [hg] at hq
  simp at hq

/-- C2, amended: for every query whose scan yields keys and then an error other
than the sentinel, if `Read` succeeds for the keys yielded, `Get` returns that
error, and the caller's slice afterwards is its previous contents followed by the
entities materialised before the error, in scan order: the results read so far
stay in the slice. -/
theorem Get_iteration_error_keeps_results (ctx : Ctx) (q : Query) (d : DQuery)
    (ms : List Modelable) (keys : List Key) (f : Failure)
    (hd : q.dq = some d) (hT : q.mType.modelable = true)
    (hscan : ctx.scan d.KeysOnly = (keys, some f))
    (hread : ∀ k ∈ keys, ∃ m, Read ctx (keyed q.mType k) = .ok m) :
    ∃ ents, q.Get ctx ms
        = some ⟨{ q with dq := some d.KeysOnly }, ms ++ ents, some (.Fail f)⟩ ∧
      List.Forall₂ (fun k e => e.model.key = some k ∧ Read ctx (keyed q.mType k) = .ok e)
        keys ents := by
  obtain ⟨content, hc⟩ := reads_content ctx q.mType keys hread
  exact ⟨_, Get_iterFail ctx q d hd hT content keys f hscan hc ms,
    forall₂_materialised ctx q.mType content keys hc⟩

theorem Get_iteration_error_keeps_results_witness :
    ∃ ents, entityQuery.Get failsAfterOne []
        = some ⟨{ entityQuery with dq := some (datastoreNewQuery "Entity").KeysOnly },
            [] ++ ents, some (.Fail (.Store 7))⟩ ∧
      List.Forall₂
        (fun k e => e.model.key = some k ∧
          Read failsAfterOne (keyed entityQuery.mType k) = .ok e)
        [1] ents :=
  Get_iteration_error_keeps_results failsAfterOne entityQuery (datastoreNewQuery "Entity")
    [] [1] (.Store 7) rfl rfl rfl
    (fun k _ => ⟨materialised entityType k [("Num", .int k)], rfl⟩)

/-- C10: `Get` returns, and (for a query whose target type is castable, as every
query built by `NewQuery` is) it returns a nil error exactly when the store query
is non-nil, the scan ends with the sentinel and `Read` succeeds for every key
yielded (a scan of zero keys included). Otherwise it returns the first error in
scan order: the invalid-query error with the slice untouched; or the error of the
first failing `Read`, the slice holding only the entities of the keys before it,
whatever the scan holds after that key; or the scan's own error once every key
before it has been read and appended. -/
theorem Get_nil_error_iff (ctx : Ctx) (q : Query) (ms : List Modelable)
    (hT : q.mType.modelable = true) :
    ∃ r, q.Get ctx ms = some r ∧
      (r.err = none ↔
        ∃ d, q.dq = some d ∧ (ctx.scan d.KeysOnly).2 = none ∧
          ∀ k ∈ (ctx.scan d.KeysOnly).1, ∃ m, Read ctx (keyed q.mType k) = .ok m) ∧
      (q.dq = none → r.err = some (.Fail .InvalidQuery) ∧ r.modelables = ms) ∧
      (∀ d, q.dq = some d → (ctx.scan d.KeysOnly).1 = [] → (ctx.scan d.KeysOnly).2 = none →
        Query.get { q with dq := some d.KeysOnly } ctx ms = some (ms, none, some .Done) ∧
          r.err = none ∧ r.modelables = ms) ∧
      (∀ d pre k post f, q.dq = some d → (ctx.scan d.KeysOnly).1 = pre ++ k :: post →
        (∀ x ∈ pre, ∃ m, Read ctx (keyed q.mType x) = .ok m) →
        Read ctx (keyed q.mType k) = .error f →
        r.err = some (.Fail f) ∧
          ∃ ents, r.modelables = ms ++ ents ∧
            List.Forall₂
              (fun x e => e.model.key = some x ∧ Read ctx (keyed q.mType x) = .ok e)
              pre ents) ∧
      (∀ d f, q.dq = some d → (ctx.scan d.KeysOnly).2 = some f →
        (∀ x ∈ (ctx.scan d.KeysOnly).1, ∃ m, Read ctx (keyed q.mType x) = .ok m) →
        r.err = some (.Fail f) ∧
          ∃ ents, r.modelables = ms ++ ents ∧
            List.Forall₂
              (fun x e => e.model.key = some x ∧ Read ctx (keyed q.mType x) = .ok e)
              (ctx.scan d.KeysOnly).1 ents) := by
  cases hq : q.dq with
  | none =>
    refine ⟨_, Get_nil ctx q hq ms, ?_, fun _ => ⟨rfl, rfl⟩, ?_, ?_, ?_⟩
    · simp
    · intro d h; cases h
    · intro d pre k post f h; cases h
    · intro d f h; cases h
  | some d =>
    cases hs : ctx.scan d.KeysOnly with
    | mk keys failure =>
      by_cases hall : ∀ k ∈ keys, ∃ m, Read ctx (keyed q.mType k) = .ok m
      · obtain ⟨content, hc⟩ := reads_content ctx q.mType keys hall
        have hF := forall₂_materialised ctx q.mType content keys hc
        cases failure with
        | none =>
          refine ⟨_, Get_clean ctx q d hq hT content keys hs hc ms, ?_, ?_, ?_, ?_, ?_⟩
          · simp only [true_iff]
            exact ⟨d, rfl, by rw [hs], by rw [hs]; exact hall⟩
          · intro h; cases h
          · intro d1 h1 hk _
            cases h1
            rw [hs] at hk
            simp only at hk
            subst hk
            exact ⟨get_no_keys ctx _ d.KeysOnly rfl hs ms, by simp⟩
          · intro d1 pre k post f h1 hk hpre hkf
            cases h1
            rw [hs] at hk
            simp only at hk
            obtain ⟨m, hm⟩ := hall k (by rw [hk]; simp)
            rw [hm] at hkf
            cases hkf
          · intro d1 f h1 h2
            cases h1
            rw [hs] at h2
            cases h2
        | some f0 =>
          refine ⟨_, Get_iterFail ctx q d hq hT content keys f0 hs hc ms, ?_, ?_, ?_, ?_, ?_⟩
          · simp only [false_iff, reduceCtorEq]
            rintro ⟨d1, h1, h2, _⟩
            cases h1
            rw [hs] at h2
            cases h2
          · intro h; cases h
          · intro d1 h1 _ h2
            cases h1
            rw [hs] at h2
            cases h2
          · intro d1 pre k post f h1 hk hpre hkf
            cases h1
            rw [hs] at hk
            simp only at hk
            obtain ⟨m, hm⟩ := hall k (by rw [hk]; simp)
            rw [hm] at hkf
            cases hkf
          · intro d1 f h1 h2 _
            cases h1
            rw [hs] at h2 ⊢
            cases h2
            exact ⟨rfl, _, rfl, hF⟩
      · obtain ⟨pre, k, post, hkeys, hpre, hk⟩ :=
          first_failing (fun k => ∃ m, Read ctx (keyed q.mType k) = .ok m) keys hall
        obtain ⟨f, hf⟩ := Read_keyed_ok_or_error ctx q.mType k hk
        obtain ⟨content, hc⟩ := reads_content ctx q.mType pre hpre
        have hF := forall₂_materialised ctx q.mType content pre hc
        subst hkeys
        refine ⟨_, Get_readFail ctx q d hq hT content pre k post failure f hs hc
          (Read_keyed_error ctx q.mType k f hf) ms, ?_, ?_, ?_, ?_, ?_⟩
        · simp only [false_iff, reduceCtorEq]
          rintro ⟨d1, h1, _, h3⟩
          cases h1
          rw [hs] at h3
          exact hall h3
        · intro h; cases h
        · intro d1 h1 h2 _
          cases h1
          rw [hs] at h2
          simp at h2
        · intro d1 pre1 k1 post1 f1 h1 hk1 hpre1 hkf1
          cases h1
          rw [hs] at hk1
          simp only at hk1
          obtain ⟨content1, hc1⟩ := reads_content ctx q.mType pre1 hpre1
          have hG := Get_readFail ctx q d hq hT content1 pre1 k1 post1 failure f1
            (by rw [hs, hk1]) hc1 (Read_keyed_error ctx q.mType k1 f1 hkf1) ms
          have hG0 := Get_readFail ctx q d hq hT content pre k post failure f hs hc
            (Read_keyed_error ctx q.mType k f hf) ms
          rw [Option.some.inj (hG0.symm.trans hG)]
          exact ⟨rfl, _, rfl, forall₂_materialised ctx q.mType content1 pre1 hc1⟩
        · intro d1 f1 h1 _ h3
          cases h1
          rw [hs] at h3
          exact absurd h3 hall

theorem Get_nil_error_iff_witness :
    entityQuery.mType.modelable = true ∧
      ∃ r, entityQuery.Get secondReadFails [] = some r ∧ r.err = some (.Fail (.Store 9)) ∧
        ∃ ents, r.modelables = [] ++ ents ∧
          List.Forall₂
            (fun x e => e.model.key = some x ∧
              Read secondReadFails (keyed entityQuery.mType x) = .ok e)
            [1] ents := by
  obtain ⟨r, hr, _, _, _, h4, _⟩ := Get_nil_error_iff secondReadFails entityQuery [] rfl
  have h := h4 (datastoreNewQuery "Entity") [1] 2 [3] (.Store 9) rfl rfl
    (fun k hk => by
      obtain rfl : k = 1 := by simpa using hk
      exact ⟨materialised entityType 1 [("Num", .int 1)], rfl⟩) rfl
  exact ⟨rfl, r, hr, h.1, h.2⟩

/-! ## Properties of `Query.First` -/

/-- C4: `First` is `Get` with the limit forced to 1, whatever limit the query had:
when `Limit(1)` followed by `Get` on an empty slice does not return, neither does
`First`; when it returns an error, `First` returns the same error and leaves the
destination as it was; when it returns no error and a non-empty slice, `First`
returns no error and the destination becomes a copy of the first element (the
destination being of that element's type); when it returns no error and an empty
slice, `First` returns the not-found error. In each case the query is left as
`Limit(1)` and `Get` leave it. -/
theorem First_eq_Get_with_limit_one (ctx : Ctx) (q : Query) (m : Modelable) :
    match (q.Limit 1).bind (fun q1 => q1.Get ctx []) with
    | none => q.First ctx m = none
    | some r =>
      (∀ e, r.err = some e → q.First ctx m = some ⟨r.query, m, some e⟩) ∧
      (∀ x xs, r.err = none → r.modelables = x :: xs → m.typ = x.typ →
        q.First ctx m = some ⟨r.query, x, none⟩) ∧
      (r.err = none → r.modelables = [] →
        q.First ctx m = some ⟨r.query, m, some (.Fail .ErrNoSuchEntity)⟩) := by
  cases hq : q.dq with
  | none => simp [Query.Limit, Query.First, hq]
  | some d =>
    have hb : (q.Limit 1).bind (fun q1 => q1.Get ctx [])
        = Query.Get { q with dq := some (d.Limit 1) } ctx [] := by
      simp [Query.Limit, hq]
    rw [hb]
    simp only [Query.First, hq]
    generalize Query.Get { q with dq := some (d.Limit 1) } ctx [] = g
    cases g with
    | none => rfl
    | some r =>
      refine ⟨?_, ?_, ?_⟩
      · intro e he
        simp [he]
      · intro x xs he hx ht
        simp [he, hx, ht]
      · intro he hx
        simp [he, hx]

theorem First_eq_Get_with_limit_one_witness :
    entityQuery.First twoKeys (reflectNew entityType)
      = some ⟨⟨some (((datastoreNewQuery "Entity").Limit 1).KeysOnly), entityType⟩,
          materialised entityType 1 [("Num", .int 1)], none⟩ := by
  have h := First_eq_Get_with_limit_one twoKeys entityQuery (reflectNew entityType)
  have hg : (entityQuery.Limit 1).bind (fun q1 => q1.Get twoKeys [])
      = some ⟨⟨some (((datastoreNewQuery "Entity").Limit 1).KeysOnly), entityType⟩,
          [materialised entityType 1 [("Num", .int 1)],
            materialised entityType 2 [("Num", .int 2)]], none⟩ := by decide
  rw [hg] at h
  exact h.2.1 _ _ rfl rfl rfl

/-- C3: for every query with a store query and every store state in which the scan
`First` runs (the query with limit 1, keys only) does not fail and `Read` succeeds
for the keys it yields, `First` returns, and it returns the not-found error
`datastore.ErrNoSuchEntity` if and only if that scan finds no entity; when it
returns not-found the destination is unchanged. The destination is of the query's
type. -/
theorem First_not_found_iff (ctx : Ctx) (q : Query) (d : DQuery) (m : Modelable)
    (hd : q.dq = some d) (hm : m.typ = q.mType)
    (hiter : (ctx.scan (d.Limit 1).KeysOnly).2 = none)
    (hread : ∀ k ∈ (ctx.scan (d.Limit 1).KeysOnly).1,
      ∃ e, Read ctx (keyed q.mType k) = .ok e) :
    ∃ r, q.First ctx m = some r ∧
      (r.err = some (.Fail .ErrNoSuchEntity) ↔ (ctx.scan (d.Limit 1).KeysOnly).1 = []) ∧
      (r.err = some (.Fail .ErrNoSuchEntity) → r.m = m) := by
  cases hs : ctx.scan (d.Limit 1).KeysOnly with
  | mk keys failure =>
    rw [hs] at hiter hread
    simp only at hiter hread
    subst hiter
    have hd1 : ({ q with dq := some (d.Limit 1) } : Query).dq = some (d.Limit 1) := rfl
    cases keys with
    | nil =>
      have hg := Get_empty ctx { q with dq := some (d.Limit 1) } (d.Limit 1) hd1 none hs []
      refine ⟨⟨{ q with dq := some (d.Limit 1).KeysOnly }, m,
        some (.Fail .ErrNoSuchEntity)⟩, ?_, by simp, fun _ => rfl⟩
      simp [Query.First, hd, hg]
    | cons k ks =>
      cases hT : q.mType.modelable with
      | false =>
        have hg := Get_castFail ctx { q with dq := some (d.Limit 1) } (d.Limit 1) hd1 hT
          k ks none hs []
        refine ⟨⟨{ q with dq := some (d.Limit 1).KeysOnly }, m,
          some (.Fail (.CastFailure q.mType.Name))⟩, ?_, by simp, by simp⟩
        simp [Query.First, hd, hg]
      | true =>
        obtain ⟨content, hc⟩ := reads_content ctx q.mType (k :: ks) hread
        have hg := Get_clean ctx { q with dq := some (d.Limit 1) } (d.Limit 1) hd1 hT
          content (k :: ks) hs hc []
        refine ⟨⟨{ q with dq := some (d.Limit 1).KeysOnly },
          materialised q.mType k (content k), none⟩, ?_, by simp, by simp⟩
        simp [Query.First, hd, hg, hm, materialised]

theorem First_not_found_iff_witness :
    ∃ r, entityQuery.First (memCtx [] smallDb) (reflectNew entityType) = some r ∧
      (r.err = some (.Fail .ErrNoSuchEntity) ↔
        ((memCtx [] smallDb).scan ((datastoreNewQuery "Entity").Limit 1).KeysOnly).1 = []) ∧
      (r.err = some (.Fail .ErrNoSuchEntity) → r.m = reflectNew entityType) :=
  First_not_found_iff (memCtx [] smallDb) entityQuery (datastoreNewQuery "Entity")
    (reflectNew entityType) rfl rfl (by decide)
    (fun k hk => by
      have h10 : ((memCtx [] smallDb).scan ((datastoreNewQuery "Entity").Limit 1).KeysOnly).1
          = [10] := by decide
      rw [h10] at hk
      obtain rfl : k = 10 := by simpa using hk
      exact ⟨materialised entityType 10 [("Name", .str "c"), ("Num", .int 2)], rfl⟩)

/-! ## Properties of the builder -/

/-- C5: `WithModelable(field, ref)` returns an error (with a nil query) if and only
if the reference is not registered, or its key is nil, or the query's target type
has no field named `field`; the checks are made in that order: an unregistered
reference yields the not-registered error whatever its key and the field, and a
registered reference without a key yields the key-not-set error whatever the
field; a registered and keyed reference with a missing field yields the
field-not-found error. -/
theorem WithModelable_error_iff (referenceName : String → String → String) (q : Query)
    (field : String) (ref : Modelable) :
    ((∃ e, q.WithModelable referenceName field ref = some (.error e)) ↔
      (ref.model.Registered = false ∨ ref.model.key = none ∨ field ∉ q.mType.fields)) ∧
    (ref.model.Registered = false →
      q.WithModelable referenceName field ref = some (.error .NotRegistered)) ∧
    (ref.model.Registered = true → ref.model.key = none →
      q.WithModelable referenceName field ref = some (.error .KeyNotSet)) ∧
    (∀ k, ref.model.Registered = true → ref.model.key = some k → field ∉ q.mType.fields →
      q.WithModelable referenceName field ref
        = some (.error (.NoField q.mType.Name field))) := by
  cases hr : ref.model.Registered with
  | false => simp [Query.WithModelable, Modelable.getModel, hr]
  | true =>
    cases hk : ref.model.key with
    | none => simp [Query.WithModelable, Modelable.getModel, hr, hk]
    | some k =>
      by_cases hf : field ∈ q.mType.fields
      · cases hq : q.dq <;>
          simp [Query.WithModelable, Modelable.getModel, hr, hk, hf, MType.FieldByName,
            Query.WithField, hq]
      · simp [Query.WithModelable, Modelable.getModel, hr, hk, hf, MType.FieldByName]

theorem WithModelable_error_iff_witness :
    entityQuery.WithModelable dotName "Missing" (reflectNew entityType)
      = some (.error .NotRegistered) :=
  (WithModelable_error_iff dotName entityQuery "Missing" (reflectNew entityType)).2.1 rfl

/-- C6: for every query with a store query over the target type `T`, every field
name that exists on `T` and every registered reference with the non-nil key `k`,
`WithModelable(field, ref)` returns no error and the same query with exactly one
filter added after the existing ones, the equality filter
`referenceName(T.Name, field) = ` with the value `k`; the target type, the earlier
filters, the order, the offset, the limit and the keys-only flag are unchanged. -/
theorem WithModelable_adds_reference_filter (referenceName : String → String → String)
    (q : Query) (d : DQuery) (field : String) (ref : Modelable) (k : Key)
    (hd : q.dq = some d) (hf : field ∈ q.mType.fields)
    (hr : ref.model.Registered = true) (hk : ref.model.key = some k) :
    q.WithModelable referenceName field ref = some (.ok
      { dq := some
          { kind := d.kind
            filter := d.filter ++ [(referenceName q.mType.Name field ++ " = ", .key k)]
            order := d.order, offset := d.offset, limit := d.limit, keysOnly := d.keysOnly }
        mType := q.mType }) := by
  simp [Query.WithModelable, Modelable.getModel, hr, hk, hf, MType.FieldByName,
    Query.WithField, hd, DQuery.Filter]

theorem WithModelable_adds_reference_filter_witness :
    entityQuery.WithModelable dotName "Child" keyedRef = some (.ok
      { dq := some
          { kind := "Entity", filter := [("Entity.Child = ", .key 42)], order := [],
            offset := 0, limit := -1, keysOnly := false }
        mType := entityType }) :=
  WithModelable_adds_reference_filter dotName entityQuery (datastoreNewQuery "Entity")
    "Child" keyedRef 42 rfl (by decide) rfl rfl

/-- C9: on a query with a store query, each of the builder steps `WithField`,
`OrderBy`, `OffsetBy` and `Limit` returns the query it was called on with only its
own component changed: `WithField` appends one filter after the existing ones,
`OrderBy` appends one order clause, `OffsetBy` sets the offset, `Limit` sets the
limit; the target type and every other component are unchanged. -/
theorem builder_steps_frame (q : Query) (d : DQuery) (hd : q.dq = some d) :
    (∀ field value, q.WithField field value = some
      { dq := some
          { kind := d.kind, filter := d.filter ++ [(field, value)], order := d.order,
            offset := d.offset, limit := d.limit, keysOnly := d.keysOnly }
        mType := q.mType }) ∧
    (∀ fieldName, q.OrderBy fieldName = some
      { dq := some
          { kind := d.kind, filter := d.filter, order := d.order ++ [fieldName],
            offset := d.offset, limit := d.limit, keysOnly := d.keysOnly }
        mType := q.mType }) ∧
    (∀ offset, q.OffsetBy offset = some
      { dq := some
          { kind := d.kind, filter := d.filter, order := d.order,
            offset := offset, limit := d.limit, keysOnly := d.keysOnly }
        mType := q.mType }) ∧
    (∀ limit, q.Limit limit = some
      { dq := some
          { kind := d.kind, filter := d.filter, order := d.order,
            offset := d.offset, limit := limit, keysOnly := d.keysOnly }
        mType := q.mType }) := by
  refine ⟨?_, ?_, ?_, ?_⟩ <;> intro <;>
    simp [Query.WithField, Query.OrderBy, Query.OffsetBy, Query.Limit, hd, DQuery.Filter,
      DQuery.Order, DQuery.Offset, DQuery.Limit]

theorem builder_steps_frame_witness :
    ((entityQuery.WithField "Name =" (.str "Enzo")).bind
        (fun q => q.WithField "Num >" (.int 10))).bind (fun q => q.Limit 5)
      = some
        { dq := some
            { kind := "Entity", filter := [("Name =", .str "Enzo"), ("Num >", .int 10)],
              order := [], offset := 0, limit := 5, keysOnly := false }
          mType := entityType } := by
  rw [(builder_steps_frame entityQuery (datastoreNewQuery "Entity") rfl).1]
  rfl

/-! ## The in-memory store -/

theorem valueLe_total (a b : Value) : a.le b = true ∨ b.le a = true := by
  cases a <;> cases b <;> simp only [Value.le, decide_eq_true_eq, or_true, true_or] <;>
    exact le_total _ _

theorem valueLe_trans (a b c : Value) (h1 : a.le b = true) (h2 : b.le c = true) :
    a.le c = true := by
  cases a <;> cases b <;> cases c <;>
    simp only [Value.le, decide_eq_true_eq, Bool.false_eq_true] at h1 h2 ⊢ <;>
    exact le_trans h1 h2

theorem atomLe_total (a b : Option Value) : atomLe a b = true ∨ atomLe b a = true := by
  cases a <;> cases b <;> simp [atomLe]
  exact valueLe_total _ _

theorem atomLe_trans (a b c : Option Value) (h1 : atomLe a b = true) (h2 : atomLe b c = true) :
    atomLe a c = true := by
  cases a <;> cases b <;> cases c <;> simp [atomLe] at h1 h2 ⊢
  exact valueLe_trans _ _ _ h1 h2

theorem orderRel_total (fieldName : String) : IsTotal Stored (orderRel fieldName) :=
  ⟨fun a b => by unfold orderRel; split <;> exact atomLe_total _ _⟩

theorem orderRel_trans (fieldName : String) : IsTrans Stored (orderRel fieldName) :=
  ⟨fun a b c h1 h2 => by
    unfold orderRel at h1 h2 ⊢
    split at h1 <;> simp_all <;> first
      | exact atomLe_trans _ _ _ h2 h1
      | exact atomLe_trans _ _ _ h1 h2⟩

theorem find?_of_filter_singleton {α : Type} (p : α → Bool) (x : α) :
    ∀ l : List α, l.filter p = [x] → l.find? p = some x := by
  intro l
  induction l with
  | nil => intro h; simp at h
  | cons a as ih =>
    intro h
    by_cases ha : p a = true
    · simp only [List.filter_cons, ha, if_true] at h
      have hax : a = x := (List.cons.inj h).1
      subst hax
      simp [List.find?_cons, ha]
    · simp only [List.filter_cons, ha] at h
      simp [List.find?_cons, ha, ih h]

/-- What the store reads off a record that holds exactly one property `Num`, a
number. -/
theorem num_facts (p : Props) (i : Int)
    (h : p.filter (fun pv => pv.1 == "Num") = [("Num", .int i)]) :
    numOf p = i ∧
      (p.find? (fun pv => pv.1 == "Num")).map (·.2) = some (.int i) ∧
      ∀ k : Int, p.any (fun pv => pv.1 == "Num" && Op.gt.holds pv.2 (.int k)) = decide (k < i) := by
  have hf := find?_of_filter_singleton _ _ p h
  refine ⟨by simp [numOf, hf], by simp [hf], fun k => ?_⟩
  have : p.any (fun pv => pv.1 == "Num" && Op.gt.holds pv.2 (.int k))
      = (p.filter (fun pv => pv.1 == "Num")).any (fun pv => Op.gt.holds pv.2 (.int k)) := by
    rw [List.any_filter]
  rw [this, h]
  by_cases hk : k < i
  · have : k ≤ i := le_of_lt hk
    have hne : ¬ i = k := by omega
    simp [Op.holds, Value.sameKind, Value.le, hk, this, hne]
  · have : i ≤ k := not_lt.1 hk
    simp [Op.holds, Value.sameKind, Value.le, hk]
    omega

theorem range_filter_gt (n k : Nat) (hk : k < n) :
    (List.range n).filter (fun i => decide (k < i)) = List.range' (k + 1) (n - k - 1) := by
  have e : List.range n = List.range' 0 (k + 1) ++ List.range' (k + 1) (n - k - 1) := by
    rw [List.range_eq_range']
    have := List.range'_append 0 (k + 1) (n - k - 1) 1
    simp only [Nat.one_mul, Nat.zero_add] at this
    rw [this]
    congr 1
    omega
  rw [e, List.filter_append]
  have h1 : (List.range' 0 (k + 1)).filter (fun i => decide (k < i)) = [] := by
    rw [List.filter_eq_nil_iff]
    intro a ha
    have := (List.mem_range'_1.1 ha).2
    simp only [decide_eq_true_eq]
    omega
  have h2 : (List.range' (k + 1) (n - k - 1)).filter (fun i => decide (k < i))
      = List.range' (k + 1) (n - k - 1) := by
    rw [List.filter_eq_self]
    intro a ha
    have := (List.mem_range'_1.1 ha).1
    simp only [decide_eq_true_eq]
    omega
  rw [h1, h2, List.nil_append]

/-- A fetch of the key of a stored record returns the record's properties, when
keys are unique in the store and the cache holds only what the store holds. -/
theorem memCtx_fetch (cache : List (Key × Props)) (db : List Stored)
    (hkeys : (db.map (·.key)).Nodup)
    (hcache : ∀ key p, cache.lookup key = some p → ∃ e ∈ db, e.key = key ∧ e.props = p)
    (e : Stored) (he : e ∈ db) : (memCtx cache db).fetch e.key = .ok e.props := by
  have hinj := List.inj_on_of_nodup_map hkeys
  simp only [memCtx]
  cases hl : cache.lookup e.key with
  | some p =>
    obtain ⟨e1, he1, hk1, hp1⟩ := hcache _ _ hl
    have := hinj he1 he hk1
    subst this
    simp [hp1]
  | none =>
    cases hf : db.find? (fun x => x.key == e.key) with
    | none =>
      rw [List.find?_eq_none] at hf
      exact absurd (by simp) (hf e he)
    | some e1 =>
      have h1 := List.mem_of_find?_eq_some hf
      have h2 := List.find?_some hf
      have := hinj h1 he (by simpa using h2)
      subst this
      rfl

/-- The records the in-memory store matches for the filter `Num > k` ordered by
`Num`, over records of the kind holding the numbers `0 .. n-1` once each: they are
records of the store and their numbers are `k+1, ..., n-1` in this order. -/
theorem memMatches_num (n k : Nat) (hk : k < n) (db : List Stored) (d : DQuery)
    (hnum : ∀ e ∈ db, e.kind = d.kind →
      e.props.filter (fun pv => pv.1 == "Num") = [("Num", .int (numOf e.props))])
    (hperm : ((db.filter (fun e => e.kind == d.kind)).map (fun e => numOf e.props)).Perm
      ((List.range n).map Int.ofNat))
    (hdf : d.filter = [("Num >", .int k)]) (hdo : d.order = ["Num"]) :
    (∀ e ∈ memMatches db d, e ∈ db) ∧
      (memMatches db d).map (fun e => numOf e.props)
        = (List.range' (k + 1) (n - k - 1)).map Int.ofNat := by
  have hparse : parseFilter "Num >" = some ("Num", .gt) := by decide
  -- the records that pass the filter
  have hhits : db.filter (fun e => e.kind == d.kind && d.filter.all e.satisfies)
      = (db.filter (fun e => e.kind == d.kind)).filter
          (fun e => decide ((k : Int) < numOf e.props)) := by
    rw [List.filter_filter]
    apply List.filter_congr
    intro e he
    by_cases hkind : e.kind = d.kind
    · have := (num_facts e.props _ (hnum e he hkind)).2.2 k
      simp [hkind, hdf, Stored.satisfies, hparse, this]
    · have hb : (e.kind == d.kind) = false := by simpa using hkind
      simp only [hb, Bool.false_and, Bool.and_false]
  have hmem : ∀ e ∈ memMatches db d, e ∈ db ∧ e.kind = d.kind := by
    intro e he
    simp only [memMatches, hdo, List.foldr_cons, List.foldr_nil, List.mem_insertionSort,
      List.mem_filter, Bool.and_eq_true, beq_iff_eq] at he
    exact ⟨he.1, he.2.1⟩
  refine ⟨fun e he => (hmem e he).1, ?_⟩
  -- both lists are sorted and hold the same numbers
  apply List.eq_of_perm_of_sorted (r := (· ≤ ·))
  · have h1 : (memMatches db d).Perm
        ((db.filter (fun e => e.kind == d.kind)).filter
          (fun e => decide ((k : Int) < numOf e.props))) := by
      simp only [memMatches, hdo, List.foldr_cons, List.foldr_nil]
      rw [hhits]
      exact (List.perm_insertionSort _ _).trans (List.perm_insertionSort _ _)
    have h2 := h1.map (fun e => numOf e.props)
    have h3 : ((db.filter (fun e => e.kind == d.kind)).filter
          (fun e => decide ((k : Int) < numOf e.props))).map (fun e => numOf e.props)
        = ((db.filter (fun e => e.kind == d.kind)).map (fun e => numOf e.props)).filter
            (fun z => decide ((k : Int) < z)) := by
      rw [List.filter_map]; rfl
    have h4 := hperm.filter (fun z => decide ((k : Int) < z))
    have h5 : ((List.range n).map Int.ofNat).filter (fun z => decide ((k : Int) < z))
        = (List.range' (k + 1) (n - k - 1)).map Int.ofNat := by
      rw [List.filter_map, ← range_filter_gt n k hk]
      congr 1
      apply List.filter_congr
      intro i _
      show decide ((k : Int) < (i : Int)) = decide (k < i)
      exact decide_eq_decide.2 Int.ofNat_lt
    rw [h3] at h2
    rw [h5] at h4
    exact h2.trans h4
  · have hs : List.Sorted (orderRel "Num") (memMatches db d) := by
      simp only [memMatches, hdo, List.foldr_cons, List.foldr_nil]
      haveI := orderRel_total "Num"
      haveI := orderRel_trans "Num"
      exact List.sorted_insertionSort _ _
    rw [List.Sorted, List.pairwise_map]
    refine List.Pairwise.imp_of_mem ?_ hs
    intro a b ha hb hab
    have fa := (num_facts a.props _ (hnum a (hmem a ha).1 (hmem a ha).2)).2.1
    have fb := (num_facts b.props _ (hnum b (hmem b hb).1 (hmem b hb).2)).2.1
    have hab1 : atomLe (a.atom "Num") (b.atom "Num") = true := hab
    simpa [Stored.atom, fa, fb, atomLe, Value.le] using hab1
  · rw [List.Sorted, List.pairwise_map]
    refine List.Pairwise.imp ?_ (List.pairwise_lt_range' (k + 1) (n - k - 1))
    intro a b hab
    exact Int.ofNat_le.2 (le_of_lt hab)

/-- C7: for every n and every threshold k < n, over an in-memory store with unique
keys (and a cache that holds only what the store holds) in which the records of
the target kind each hold exactly one property `Num`, a number, these numbers
being 0 .. n-1 once each in any storage order, the query built from `NewQuery` by
`WithField("Num >", k)` and then `OrderBy("Num")` is run by `Get` without error and
returns exactly n-k-1 entities whose `Num` values are k+1, k+2, ..., n-1 in this
order. -/
theorem filter_gt_ordered_ascending (n k : Nat) (hk : k < n) (T : MType)
    (hT : T.modelable = true) (cache : List (Key × Props)) (db : List Stored)
    (hkeys : (db.map (·.key)).Nodup)
    (hcache : ∀ key p, cache.lookup key = some p → ∃ e ∈ db, e.key = key ∧ e.props = p)
    (hnum : ∀ e ∈ db, e.kind = T.Name →
      e.props.filter (fun pv => pv.1 == "Num") = [("Num", .int (numOf e.props))])
    (hperm : ((db.filter (fun e => e.kind == T.Name)).map (fun e => numOf e.props)).Perm
      ((List.range n).map Int.ofNat)) :
    ∃ q r,
      ((NewQuery (reflectNew T)).1.WithField "Num >" (.int k)).bind
          (fun q1 => q1.OrderBy "Num") = some q ∧
      q.Get (memCtx cache db) [] = some r ∧ r.err = none ∧
      r.modelables.length = n - k - 1 ∧
      r.modelables.map (fun m => numOf m.props)
        = (List.range' (k + 1) (n - k - 1)).map Int.ofNat := by
  have hparse : parseFilter "Num >" = some ("Num", .gt) := by decide
  let d : DQuery :=
    { kind := T.Name, filter := [("Num >", .int k)], order := ["Num"], offset := 0,
      limit := -1, keysOnly := false }
  obtain ⟨hsub, hnums⟩ := memMatches_num n k hk db d.KeysOnly hnum hperm rfl rfl
  have hscan : (memCtx cache db).scan d.KeysOnly
      = ((memMatches db d.KeysOnly).map (·.key), none) := by
    simp [memCtx, memScan, d, DQuery.KeysOnly, hparse]
  let content : Key → Props := fun key =>
    match (memCtx cache db).fetch key with
    | .ok p => p
    | .error _ => []
  have hfetch : ∀ e ∈ memMatches db d.KeysOnly, content e.key = e.props := by
    intro e he
    simp only [content, memCtx_fetch cache db hkeys hcache e (hsub e he)]
  have hc : ∀ key ∈ (memMatches db d.KeysOnly).map (·.key),
      (memCtx cache db).fetch key = .ok (content key) := by
    intro key hkey
    obtain ⟨e, he, rfl⟩ := List.mem_map.1 hkey
    rw [hfetch e he]
    exact memCtx_fetch cache db hkeys hcache e (hsub e he)
  have hg := Get_clean (memCtx cache db) ⟨some d, T⟩ d rfl hT content _ hscan hc []
  have hvals : (([] : List Modelable) ++ ((memMatches db d.KeysOnly).map (·.key)).map
        (fun key => materialised T key (content key))).map (fun m => numOf m.props)
      = (List.range' (k + 1) (n - k - 1)).map Int.ofNat := by
    rw [← hnums, List.nil_append, List.map_map, List.map_map]
    apply List.map_congr_left
    intro e he
    simp [materialised, hfetch e he]
  refine ⟨⟨some d, T⟩, _, ?_, hg, rfl, ?_, hvals⟩
  · simp [NewQuery, reflectNew, index, Modelable.getModel, Query.WithField, Query.OrderBy,
      datastoreNewQuery, DQuery.Filter, DQuery.Order, d]
  · have := congrArg List.length hvals
    simpa using this

theorem filter_gt_ordered_ascending_witness :
    ∃ q r,
      ((NewQuery (reflectNew entityType)).1.WithField "Num >" (.int (10 : Nat))).bind
          (fun q1 => q1.OrderBy "Num") = some q ∧
      q.Get (memCtx [] hundred) [] = some r ∧ r.err = none ∧
      r.modelables.length = 100 - 10 - 1 ∧
      r.modelables.map (fun m => numOf m.props)
        = (List.range' (10 + 1) (100 - 10 - 1)).map Int.ofNat :=
  filter_gt_ordered_ascending 100 10 (by decide) entityType rfl [] hundred (by decide)
    (by intro key p h; simp at h) (by decide) (by decide)

/-- In the in-memory store a scan with limit 1 finds no entity exactly when the
same query without a limit finds none. -/
theorem memScan_limit_one_nil (db : List Stored) (d : DQuery) :
    (memScan db (d.Limit 1).KeysOnly).1 = [] ↔ (memScan db (d.Limit (-1))).1 = [] := by
  have hm : memMatches db (d.Limit 1).KeysOnly = memMatches db d := rfl
  have hm1 : memMatches db (d.Limit (-1)) = memMatches db d := rfl
  unfold memScan
  rw [hm, hm1]
  simp only [DQuery.Limit, DQuery.KeysOnly]
  by_cases hv : d.offset < 0 ∨ d.filter.any (fun f => (parseFilter f.1).isNone)
  · rw [if_pos hv, if_pos hv]
  · rw [if_neg hv, if_neg hv]
    cases (memMatches db d).drop d.offset.toNat <;> simp

/-! ## `GetMulti` -/

/-- The page of index `i` holds the keys of the scan from offset `i * P`, at most
`P` of them. -/
theorem GetMulti.split_getD {α : Type} (P : Nat) (hP : 0 < P) :
    ∀ (fuel : Nat) (keys : List α) (i : Nat), keys.length ≤ fuel →
      (GetMulti.split P fuel keys).getD i [] = (keys.drop (i * P)).take P := by
  intro fuel
  induction fuel with
  | zero =>
    intro keys i h
    have : keys = [] := List.length_eq_zero.1 (Nat.le_zero.1 h)
    subst this
    simp [GetMulti.split]
  | succ fuel ih =>
    intro keys i h
    cases keys with
    | nil => simp [GetMulti.split]
    | cons k ks =>
      cases i with
      | zero => simp [GetMulti.split]
      | succ j =>
        have hl : ((k :: ks).drop P).length ≤ fuel := by
          simp only [List.length_drop, List.length_cons] at h ⊢
          omega
        have := ih ((k :: ks).drop P) j hl
        simp only [GetMulti.split, List.isEmpty_cons, Bool.false_eq_true, if_false,
          List.getD_cons_succ, this, List.drop_drop]
        congr 2
        rw [Nat.succ_mul]
        exact Nat.add_comm _ _

/-- The number of pages is the ceiling of the number of keys over the page size. -/
theorem GetMulti.split_length {α : Type} (P : Nat) (hP : 0 < P) :
    ∀ (fuel : Nat) (keys : List α), keys.length ≤ fuel →
      (GetMulti.split P fuel keys).length = (keys.length + P - 1) / P := by
  intro fuel
  induction fuel with
  | zero =>
    intro keys h
    have : keys = [] := List.length_eq_zero.1 (Nat.le_zero.1 h)
    subst this
    simp only [GetMulti.split, List.length_nil, Nat.zero_add]
    exact (Nat.div_eq_of_lt (by omega)).symm
  | succ fuel ih =>
    intro keys h
    cases keys with
    | nil =>
      simp only [GetMulti.split, List.isEmpty_nil, if_true, List.length_nil, Nat.zero_add]
      exact (Nat.div_eq_of_lt (by omega)).symm
    | cons k ks =>
      have hl : ((k :: ks).drop P).length ≤ fuel := by
        simp only [List.length_drop, List.length_cons] at h ⊢
        omega
      simp only [GetMulti.split, List.isEmpty_cons, Bool.false_eq_true, if_false,
        List.length_cons, ih _ hl, List.length_drop]
      have e1 : ks.length + 1 + P - 1 = ks.length + P := by omega
      rw [e1, Nat.add_div_right _ hP]
      congr 1
      by_cases hlt : ks.length + 1 ≤ P
      · have z : ks.length + 1 - P = 0 := by omega
        rw [z, Nat.zero_add, Nat.div_eq_of_lt (by omega), Nat.div_eq_of_lt (by omega)]
      · have : ks.length + 1 - P + P - 1 = ks.length := by omega
        rw [this]

/-- The pages, one after the other, are the scan. -/
theorem GetMulti.split_flatten {α : Type} (P : Nat) (hP : 0 < P) :
    ∀ (fuel : Nat) (keys : List α), keys.length ≤ fuel →
      (GetMulti.split P fuel keys).flatten = keys := by
  intro fuel
  induction fuel with
  | zero =>
    intro keys h
    have : keys = [] := List.length_eq_zero.1 (Nat.le_zero.1 h)
    subst this
    simp [GetMulti.split]
  | succ fuel ih =>
    intro keys h
    cases keys with
    | nil => simp [GetMulti.split]
    | cons k ks =>
      have hl : ((k :: ks).drop P).length ≤ fuel := by
        simp only [List.length_drop, List.length_cons] at h ⊢
        omega
      simp only [GetMulti.split, List.isEmpty_cons, Bool.false_eq_true, if_false,
        List.flatten_cons, ih _ hl]
      exact List.take_append_drop P (k :: ks)

/-- A page whose goroutine has finished is found under its page index, wherever it
stands in the order of completion. -/
theorem GetMulti.lookup_delivered {α : Type} (g : Nat → List α) (i : Nat) :
    ∀ completion : List Nat, i ∈ completion →
      (completion.map (fun j => (j, g j))).lookup i = some (g i) := by
  intro completion
  induction completion with
  | nil => intro h; simp at h
  | cons j js ih =>
    intro h
    by_cases hij : i = j
    · subst hij; simp [List.lookup_cons]
    · have hm : i ∈ js := by
        rcases List.mem_cons.1 h with h1 | h1
        · exact absurd h1 hij
        · exact h1
      have hb : (i == j) = false := by simpa using hij
      simp only [List.map_cons, List.lookup_cons, hb]
      exact ih hm

/-- Reading a list index by index gives the list back. -/
theorem GetMulti.range_map_getD {α : Type} (L : List (List α)) :
    (List.range L.length).map (fun i => L.getD i []) = L := by
  apply List.ext_getElem
  · simp
  · intro n h1 h2
    simp [List.getD_eq_getElem?_getD, h2]

/-- C8: for every page size P > 0 (the fixed P = 1000 included), every scan of N
keys (N >= 0) and every order in which the goroutines of the pages finish,
multi-page retrieval returns the same N keys in the same order as the sequential
scan; the number of pages is the ceiling of N / P; the page of index i holds the
keys from offset i * P, at most P of them; every page but the last has P keys and
the last one has the N - (pages - 1) * P keys that are left, at least one; the
sizes of the pages add up to N; and the pages, concatenated by page index, are
the scan. -/
theorem GetMulti_pages_concatenate {α : Type} (P : Nat) (hP : 0 < P) (keys : List α)
    (completion : List Nat)
    (hc : completion.Perm (List.range (GetMulti.pages P keys).length)) :
    GetMulti.run P keys completion = keys ∧
      (GetMulti.pages P keys).length = (keys.length + P - 1) / P ∧
      (∀ i, GetMulti.page P keys i = (keys.drop (i * P)).take P) ∧
      (∀ i, i + 1 < (GetMulti.pages P keys).length → (GetMulti.page P keys i).length = P) ∧
      (0 < keys.length →
        (GetMulti.page P keys ((GetMulti.pages P keys).length - 1)).length
            = keys.length - ((GetMulti.pages P keys).length - 1) * P ∧
          0 < keys.length - ((GetMulti.pages P keys).length - 1) * P) ∧
      ((GetMulti.pages P keys).map List.length).sum = keys.length ∧
      (GetMulti.pages P keys).flatten = keys := by
  have hlen : (GetMulti.pages P keys).length = (keys.length + P - 1) / P :=
    GetMulti.split_length P hP keys.length keys (Nat.le_refl _)
  have hpage : ∀ i, GetMulti.page P keys i = (keys.drop (i * P)).take P :=
    fun i => GetMulti.split_getD P hP keys.length keys i (Nat.le_refl _)
  have hflat : (GetMulti.pages P keys).flatten = keys :=
    GetMulti.split_flatten P hP keys.length keys (Nat.le_refl _)
  have hmod := Nat.div_add_mod (keys.length + P - 1) P
  have hmodlt := Nat.mod_lt (keys.length + P - 1) hP
  refine ⟨?_, hlen, hpage, ?_, ?_, ?_, hflat⟩
  · have hl : ∀ i ∈ List.range (GetMulti.pages P keys).length,
        ((GetMulti.delivered P keys completion).lookup i).getD []
          = (GetMulti.pages P keys).getD i [] := by
      intro i hi
      have hmem : i ∈ completion := hc.symm.subset hi
      rw [GetMulti.delivered, GetMulti.lookup_delivered _ i completion hmem]
      rfl
    rw [GetMulti.run, GetMulti.concatByIndex, List.map_congr_left hl,
      GetMulti.range_map_getD]
    exact hflat
  · intro i hi
    rw [hpage, List.length_take, List.length_drop]
    have hi2 : i + 2 ≤ (keys.length + P - 1) / P := by
      rw [← hlen]; omega
    have h3 := Nat.mul_le_mul_left P hi2
    have e : P * (i + 2) = i * P + P + P := by ring
    rw [e] at h3
    omega
  · intro hpos
    rw [hpage, List.length_take, List.length_drop]
    have hc1 : 1 ≤ (GetMulti.pages P keys).length := by
      rw [hlen]
      exact (Nat.le_div_iff_mul_le hP).2 (by omega)
    obtain ⟨c, hcc⟩ : ∃ c, (GetMulti.pages P keys).length = c + 1 :=
      ⟨(GetMulti.pages P keys).length - 1, by omega⟩
    have hc2 : (keys.length + P - 1) / P = c + 1 := by
      rw [← hlen]; exact hcc
    rw [hc2] at hmod
    have e : P * (c + 1) = c * P + P := by ring
    rw [e] at hmod
    simp only [hcc, Nat.add_sub_cancel]
    omega
  · rw [← List.length_flatten, hflat]

theorem GetMulti_pages_concatenate_witness :
    GetMulti.run GetMulti.pageSize (List.range 2000) [1, 0] = List.range 2000 ∧
      (GetMulti.pages GetMulti.pageSize (List.range 2000)).length = 2 ∧
      ((GetMulti.pages GetMulti.pageSize (List.range 2000)).map List.length).sum = 2000 := by
  have hlen : (GetMulti.pages GetMulti.pageSize (List.range 2000)).length = 2 := by
    rw [GetMulti.pages, GetMulti.split_length GetMulti.pageSize (by decide) _ _ (Nat.le_refl _),
      List.length_range]
    rfl
  have h := GetMulti_pages_concatenate GetMulti.pageSize (by decide) (List.range 2000)
    [1, 0] (by rw [hlen]; decide)
  refine ⟨h.1, hlen, ?_⟩
  rw [h.2.2.2.2.2.1, List.length_range]

end Flamel
